import Mathlib

/-!
# memregtest: flag parsing and the registration pipeline

A shallow embedding of `src/memregtest.c`.  C strings are `List Char`
(NUL-free), machine integers are `Nat`/`Int`, pointers that may be `NULL`
are `Option`s, and the calls into libc and libfabric are read from an
environment record and written to an event trace.
-/

namespace MemRegTest

/-! ## Constants from the system and libfabric headers

The numeric values are not part of the repository; they are the ones of
`<rdma/fabric.h>`, `<rdma/fi_endpoint.h>` and of `<sys/mman.h>`, `<fcntl.h>`
on Linux/x86-64. -/

def FI_MSG : Nat := 2 ^ 1
def FI_RMA : Nat := 2 ^ 2
def FI_READ : Nat := 2 ^ 8
def FI_WRITE : Nat := 2 ^ 9
def FI_REMOTE_READ : Nat := 2 ^ 12
def FI_REMOTE_WRITE : Nat := 2 ^ 13
def FI_RX_CQ_DATA : Nat := 2 ^ 56
def FI_EP_MSG : Nat := 1
def FI_EP_DGRAM : Nat := 2
def FI_EP_RDM : Nat := 3
def FI_EP_SOCK_STREAM : Nat := 4
def MAP_SHARED : Nat := 0x01
def MAP_LOCKED : Nat := 0x2000
def PROT_NONE : Nat := 0x0
def PROT_READ : Nat := 0x1
def PROT_WRITE : Nat := 0x2
def O_RDONLY : Nat := 0
def O_WRONLY : Nat := 1
def O_RDWR : Nat := 2
def O_CLOEXEC : Nat := 0o2000000

/-! ## `parse_flag_value` -/

/-- Which of the two output pointers of `parse_flag_value` a macro line is
given: `flag_value_int` or `flag_value_uint`. -/
inductive Ptr where
  | int
  | uint
  deriving DecidableEq, Repr

/-- The pointees of the two output pointers; `none` is a `NULL` pointer. -/
structure Targets where
  flag_value_int : Option Nat
  flag_value_uint : Option Nat
  deriving DecidableEq, Repr

/-- Dereference one of the two pointers. -/
def Targets.get (t : Targets) : Ptr → Option Nat
  | .int => t.flag_value_int
  | .uint => t.flag_value_uint

/-- Store through one of the two pointers. -/
def Targets.set (t : Targets) : Ptr → Nat → Targets
  | .int, v => { t with flag_value_int := some v }
  | .uint, v => { t with flag_value_uint := some v }

/-- The macro `MAP_FLAG_STR(str, flag, flag_val)`: when `str` is the name of
the flag, return -1 for a `NULL` target and otherwise OR the flag into the
target and return 0; when it is not, fall through to the rest of the
function body, `next`. -/
def MAP_FLAG_STR (str : List Char) (name : String) (flag : Nat) (flag_val : Ptr)
    (t : Targets) (next : Int × Targets) : Int × Targets :=
  if str = name.toList then
    match t.get flag_val with
    | none => (-1, t)
    | some v => (0, t.set flag_val (v ||| flag))
  else next

/-- The function `parse_flag_value`: the chain of twenty macro lines, then
`return -1`. -/
def parse_flag_value (string : List Char) (t : Targets) : Int × Targets :=
  MAP_FLAG_STR string "FI_WRITE" FI_WRITE .uint t <|
  MAP_FLAG_STR string "FI_RMA" FI_RMA .uint t <|
  MAP_FLAG_STR string "FI_READ" FI_READ .uint t <|
  MAP_FLAG_STR string "FI_REMOTE_READ" FI_REMOTE_READ .uint t <|
  MAP_FLAG_STR string "FI_REMOTE_WRITE" FI_REMOTE_WRITE .uint t <|
  MAP_FLAG_STR string "FI_MSG" FI_MSG .uint t <|
  MAP_FLAG_STR string "FI_EP_MSG" FI_EP_MSG .uint t <|
  MAP_FLAG_STR string "FI_EP_DGRAM" FI_EP_DGRAM .uint t <|
  MAP_FLAG_STR string "FI_EP_RDM" FI_EP_RDM .uint t <|
  MAP_FLAG_STR string "FI_EP_SOCK_STREAM" FI_EP_SOCK_STREAM .uint t <|
  MAP_FLAG_STR string "FI_RX_CQ_DATA" FI_RX_CQ_DATA .uint t <|
  MAP_FLAG_STR string "MAP_SHARED" MAP_SHARED .int t <|
  MAP_FLAG_STR string "MAP_LOCKED" MAP_LOCKED .int t <|
  MAP_FLAG_STR string "PROT_READ" PROT_READ .int t <|
  MAP_FLAG_STR string "PROT_WRITE" PROT_WRITE .int t <|
  MAP_FLAG_STR string "PROT_NONE" PROT_NONE .int t <|
  MAP_FLAG_STR string "O_RDWR" O_RDWR .int t <|
  MAP_FLAG_STR string "O_WRONLY" O_WRONLY .int t <|
  MAP_FLAG_STR string "O_RDONLY" O_RDONLY .int t <|
  MAP_FLAG_STR string "O_CLOEXEC" O_CLOEXEC .int t <|
  (-1, t)

/-! ## `strtok` and `parse_flag_values` -/

/-- The delimiter set `",|"` handed to `strtok`. -/
def isDelim (c : Char) : Bool := c = ',' || c = '|'

/-- One call of `strtok` on the text that is left: skip leading delimiters;
at the end of the text return `NULL`; otherwise the token runs to the next
delimiter, which is overwritten by NUL, and scanning resumes behind it. -/
def strtok (s : List Char) : Option (List Char × List Char) :=
  match s.dropWhile isDelim with
  | [] => none
  | c :: cs =>
    some ((c :: cs).takeWhile (fun x => !isDelim x),
          ((c :: cs).dropWhile (fun x => !isDelim x)).tail)

/-- What `parse_flag_values` leaves behind: the return value, the two
targets, and the token named in the `invalid flag: %s` message, if any. -/
structure PResult where
  ret : Int
  targets : Targets
  reported : Option (List Char)
  deriving DecidableEq, Repr

/-- The `while (tok != NULL)` loop of `parse_flag_values`, on the text that
`strtok` has still to scan.  The bound `fuel` only makes the recursion
structural: it always exceeds the length of the text, and every call of
`strtok` that yields a token shortens the text. -/
def parse_loop : (fuel : Nat) → (s : List Char) → s.length < fuel → Targets → PResult
  | 0, _, h, _ => absurd h (Nat.not_lt_zero _)
  | fuel + 1, s, h, t =>
    match hs : strtok s with
    | none => ⟨0, t, none⟩
    | some (tok, rest) =>
      let r := parse_flag_value tok t
      if r.1 < 0 then ⟨-1, r.2, some tok⟩
      else parse_loop fuel rest (by
        unfold strtok at hs
        split at hs
        · simp at hs
        · next c cs hd =>
          simp only [Option.some.injEq, Prod.mk.injEq] at hs
          obtain ⟨-, rfl⟩ := hs
          have h1 : (c :: cs).length ≤ s.length := by
            rw [← hd]; exact (List.dropWhile_sublist _).length_le
          have h2 : (List.dropWhile (fun x => !isDelim x) (c :: cs)).length
              ≤ (c :: cs).length := (List.dropWhile_sublist _).length_le
          rw [List.length_tail]
          simp only [List.length_cons] at h h1 h2 ⊢
          omega) r.2

/-- The function `parse_flag_values(arg, flag_value_int, flag_value_uint)`. -/
def parse_flag_values (arg : List Char) (t : Targets) : PResult :=
  parse_loop (arg.length + 1) arg (Nat.lt_succ_self _) t

/-! ## `main` -/

/-- One result of `getopt_long`: the option found, with `optarg` where the
option takes an argument; `other` is the `'?'` of an unknown option.  The
command line is the list of these results up to the -1 that ends the loop
(`char ch` is taken to be signed, so that the -1 is seen). -/
inductive Opt where
  | help
  | info
  | provider (optarg : List Char)
  | node (optarg : List Char)
  | service (optarg : List Char)
  | mmap_flags (optarg : List Char)
  | prot_flags (optarg : List Char)
  | open_flags (optarg : List Char)
  | caps (optarg : List Char)
  | ep_type (optarg : List Char)
  | mode (optarg : List Char)
  | other
  deriving DecidableEq, Repr

/-- The fields of the `fi_info` record `hints` that `main` writes:
`fabric_attr->prov_name`, `caps`, `mode` and `ep_attr->type`, and
`ep_attr->protocol`, the `uint32_t` member that follows the four-byte enum
`type` in `struct fi_ep_attr` and is reached by the eight-byte store of the
`-e` case. -/
structure Hints where
  prov_name : Option (List Char)
  caps : Nat
  mode : Nat
  ep_type : Nat
  protocol : Nat
  deriving DecidableEq, Repr

/-- The `uint64_t` read through `(uint64_t *)&hints->ep_attr->type` on a
little-endian machine: `type` in the low four bytes, `protocol` in the high
four. -/
def Hints.ep_word (h : Hints) : Nat :=
  h.ep_type % 2 ^ 32 + 2 ^ 32 * (h.protocol % 2 ^ 32)

/-- The store of a `uint64_t` through `(uint64_t *)&hints->ep_attr->type`:
the low four bytes go to `type`, the high four to `protocol`. -/
def Hints.set_ep_word (h : Hints) (w : Nat) : Hints :=
  { h with ep_type := w % 2 ^ 32, protocol := w / 2 ^ 32 % 2 ^ 32 }

/-- The local variables of `main`; a handle is `true` when it is not `NULL`. -/
structure Vars where
  show_info : Bool
  node : Option (List Char)
  service : Option (List Char)
  open_flags : Nat
  mmap_prot : Nat
  mmap_flags : Nat
  hints : Hints
  info : Bool
  fabric : Bool
  domain : Bool
  mr : Bool
  deriving DecidableEq, Repr

/-- The locals as initialised at the top of `main`; `fi_allocinfo` returns a
zeroed record. -/
def Vars.init : Vars :=
  { show_info := false, node := none, service := none,
    open_flags := 0, mmap_prot := 0, mmap_flags := 0,
    hints := { prov_name := none, caps := 0, mode := 0, ep_type := 0, protocol := 0 },
    info := false, fabric := false, domain := false, mr := false }

/-- What the calls into libc and libfabric return in one run.  A call that
hands back a handle leaves it non-`NULL` exactly when it does not fail. -/
structure Env where
  fi_getinfo : Int
  open_create : Int
  ftruncate : Int
  close : Int
  open_test : Int
  mmap_failed : Bool
  fi_fabric2 : Int
  fi_domain : Int
  fi_mr_regattr : Int
  fi_mr_desc_null : Bool
  fi_close_mr : Int
  fi_close_domain : Int
  fi_close_fabric : Int
  deriving DecidableEq, Repr

/-- The handles `fi_close` is called on. -/
inductive Fid where
  | mr
  | domain
  | fabric
  deriving DecidableEq, Repr

/-- What a run does that can be observed from outside: the calls it makes,
with the arguments that matter and the result, and the text it writes. -/
inductive Event where
  | show_help
  | invalid_flag (tok : List Char)
  | stderr (msg : String)
  | fi_perror (status : Int) (msg : String)
  | perror (msg : String)
  | stdout (msg : String)
  | fi_getinfo (node service : List Char) (hints : Option Hints) (status : Int)
  | fi_tostr_info
  | open_create (fd : Int)
  | ftruncate (length : Nat) (result : Int)
  | close (result : Int)
  | open_test (flags : Nat) (fd : Int)
  | mmap (length prot flags : Nat) (failed : Bool)
  | fi_fabric2 (status : Int)
  | fi_domain (status : Int)
  | fi_mr_regattr (access : Nat) (status : Int)
  | fi_mr_desc (null : Bool)
  | fi_close (fid : Fid) (status : Int)
  | fi_freeinfo
  | free_node
  | free_service
  deriving DecidableEq, Repr

/-- The end of a run: the value `main` returns, what it did on the way, and
the locals as they stand at the `return`. -/
structure Outcome where
  status : Int
  trace : List Event
  vars : Vars
  deriving DecidableEq, Repr

/-- Put the events of a step in front of what the rest of the run does. -/
def Outcome.after (evs : List Event) (o : Outcome) : Outcome :=
  { o with trace := evs ++ o.trace }

/-- One `if (h != NULL) { if ((status = fi_close(&h->fid)) < 0) fprintf(...) }`
block of the cleanup: the new `status` and the events. -/
def close_handle (open_ : Bool) (fid : Fid) (result : Int) (msg : String)
    (status : Int) : Int × List Event :=
  if open_ then
    (result, Event.fi_close fid result :: (if result < 0 then [Event.stderr msg] else []))
  else (status, [])

/-- The code from the label `cleanup:` to `return status`. -/
def cleanup (env : Env) (v : Vars) (status : Int) : Outcome :=
  let c1 := close_handle v.mr .mr env.fi_close_mr "close fabric: %s" status
  let c2 := close_handle v.domain .domain env.fi_close_domain "close domain: %s" c1.1
  let c3 := close_handle v.fabric .fabric env.fi_close_fabric "close fabric: %s" c2.1
  { status := c3.1,
    trace := c1.2 ++ c2.2 ++ c3.2
      ++ (if v.info then [Event.fi_freeinfo] else [])
      ++ (if v.node.isSome then [Event.free_node] else [])
      ++ (if v.service.isSome then [Event.free_service] else []),
    vars := v }

/-- The label `error:`: `status = 1`, then fall into `cleanup`. -/
def error (env : Env) (v : Vars) : Outcome :=
  cleanup env v 1

/-- The size of the scratch file and of the mapping, `1 << 16`. -/
def shm_size : Nat := 2 ^ 16

/-- Registration: `fi_mr_regattr` with access `FI_WRITE`, then `fi_mr_desc`. -/
def register (env : Env) (v : Vars) : Outcome :=
  if env.fi_mr_regattr < 0 then
    (error env v).after
      [.fi_mr_regattr FI_WRITE env.fi_mr_regattr, .fi_perror env.fi_mr_regattr "fi_mr_regattr"]
  else if env.fi_mr_desc_null then
    (error env { v with mr := true }).after
      [.fi_mr_regattr FI_WRITE env.fi_mr_regattr, .fi_mr_desc true,
       .stderr "NULL returned for mr desc"]
  else
    (cleanup env { v with mr := true } env.fi_mr_regattr).after
      [.fi_mr_regattr FI_WRITE env.fi_mr_regattr, .fi_mr_desc false,
       .stdout "register success!\n"]

/-- Opening the fabric and the domain, `fi_fabric2` and `fi_domain`. -/
def open_fabric (env : Env) (v : Vars) : Outcome :=
  if env.fi_fabric2 < 0 then
    (error env v).after [.fi_fabric2 env.fi_fabric2, .fi_perror env.fi_fabric2 "open fabric"]
  else if env.fi_domain < 0 then
    (error env { v with fabric := true }).after
      [.fi_fabric2 env.fi_fabric2, .fi_domain env.fi_domain,
       .fi_perror env.fi_domain "open domain"]
  else
    (register env { v with fabric := true, domain := true }).after
      [.fi_fabric2 env.fi_fabric2, .fi_domain env.fi_domain]

/-- The scratch file: create and truncate, size, close, reopen with
`open_flags`, map with `mmap_prot` and `mmap_flags`. -/
def prepare_shm (env : Env) (v : Vars) : Outcome :=
  if env.open_create < 1 then
    (error env v).after [.open_create env.open_create, .perror "open"]
  else if env.ftruncate < 0 then
    (error env v).after
      [.open_create env.open_create, .ftruncate shm_size env.ftruncate, .perror "ftruncate"]
  else if env.close < 0 then
    (error env v).after
      [.open_create env.open_create, .ftruncate shm_size env.ftruncate, .close env.close,
       .perror "close"]
  else if env.open_test < 0 then
    (error env v).after
      [.open_create env.open_create, .ftruncate shm_size env.ftruncate, .close env.close,
       .open_test v.open_flags env.open_test, .perror "open"]
  else if env.mmap_failed then
    (error env v).after
      [.open_create env.open_create, .ftruncate shm_size env.ftruncate, .close env.close,
       .open_test v.open_flags env.open_test,
       .mmap shm_size v.mmap_prot v.mmap_flags true, .perror "mmap 2"]
  else
    (open_fabric env v).after
      [.open_create env.open_create, .ftruncate shm_size env.ftruncate, .close env.close,
       .open_test v.open_flags env.open_test,
       .mmap shm_size v.mmap_prot v.mmap_flags false]

/-- The seven `if (!x) x = default;` statements after the option loop. -/
def apply_defaults (v : Vars) : Vars :=
  { v with
    open_flags := if v.open_flags = 0 then O_RDONLY else v.open_flags,
    mmap_flags := if v.mmap_flags = 0 then MAP_SHARED ||| MAP_LOCKED else v.mmap_flags,
    mmap_prot := if v.mmap_prot = 0 then PROT_READ else v.mmap_prot,
    hints :=
      { prov_name := match v.hints.prov_name with
          | none => some "verbs".toList
          | some p => some p,
        caps := if v.hints.caps = 0 then FI_MSG ||| FI_REMOTE_WRITE else v.hints.caps,
        mode := if v.hints.mode = 0 then FI_RX_CQ_DATA else v.hints.mode,
        ep_type := if v.hints.ep_type = 0 then FI_EP_MSG else v.hints.ep_type,
        protocol := v.hints.protocol } }

/-- The code of `main` behind the option loop, up to the scratch file: the
check for node and service, the defaults, `fi_getinfo` (whose `hints`
argument is `NULL`), and the info-only exit. -/
def resolve (env : Env) (v : Vars) : Outcome :=
  match v.service, v.node with
  | some service, some node =>
    let v := apply_defaults v
    if env.fi_getinfo < 0 then
      (error env v).after
        [.fi_getinfo node service none env.fi_getinfo,
         .fi_perror env.fi_getinfo "get fabric info"]
    else if v.show_info then
      (cleanup env { v with info := true } env.fi_getinfo).after
        [.fi_getinfo node service none env.fi_getinfo, .fi_tostr_info]
    else
      (prepare_shm env { v with info := true }).after
        [.fi_getinfo node service none env.fi_getinfo]
  | _, _ =>
    (error env v).after [.stderr "missing required <node> and <service> option"]

/-- The message `parse_flag_values` writes before it returns -1. -/
def PResult.events (r : PResult) : List Event :=
  match r.reported with
  | some tok => [.invalid_flag tok]
  | none => []

/-- A call `parse_flag_values(optarg, &field, NULL)`: the result and the
field afterwards. -/
def parse_int (optarg : List Char) (field : Nat) : PResult × Nat :=
  let r := parse_flag_values optarg ⟨some field, none⟩
  (r, r.targets.flag_value_int.getD field)

/-- A call `parse_flag_values(optarg, NULL, &field)`: the result and the
field afterwards. -/
def parse_uint (optarg : List Char) (field : Nat) : PResult × Nat :=
  let r := parse_flag_values optarg ⟨none, some field⟩
  (r, r.targets.flag_value_uint.getD field)

/-- The `while ((ch = getopt_long(...)) != -1) switch (ch)` loop, on the
options `getopt_long` has still to deliver.  `error` is a `goto error`, with
the locals at that point and what was written before it; `ok` is the loop
running to its end. -/
def option_loop : List Opt → Vars → Except (Vars × List Event) Vars
  | [], v => .ok v
  | .help :: _, v => .error (v, [.show_help])
  | .info :: rest, v => option_loop rest { v with show_info := true }
  | .provider a :: rest, v =>
    option_loop rest { v with hints := { v.hints with prov_name := some a } }
  | .node a :: rest, v => option_loop rest { v with node := some a }
  | .service a :: rest, v => option_loop rest { v with service := some a }
  | .mmap_flags a :: rest, v =>
    let r := parse_int a v.mmap_flags
    if r.1.ret < 0 then .error ({ v with mmap_flags := r.2 }, r.1.events)
    else option_loop rest { v with mmap_flags := r.2 }
  | .prot_flags a :: rest, v =>
    let r := parse_int a v.mmap_prot
    if r.1.ret < 0 then .error ({ v with mmap_prot := r.2 }, r.1.events)
    else option_loop rest { v with mmap_prot := r.2 }
  | .open_flags a :: rest, v =>
    let r := parse_int a v.open_flags
    if r.1.ret < 0 then .error ({ v with open_flags := r.2 }, r.1.events)
    else option_loop rest { v with open_flags := r.2 }
  | .caps a :: rest, v =>
    let r := parse_uint a v.hints.caps
    if r.1.ret < 0 then
      .error ({ v with hints := { v.hints with caps := r.2 } }, r.1.events)
    else option_loop rest { v with hints := { v.hints with caps := r.2 } }
  | .ep_type a :: rest, v =>
    let r := parse_uint a v.hints.ep_word
    if r.1.ret < 0 then .error ({ v with hints := v.hints.set_ep_word r.2 }, r.1.events)
    else option_loop rest { v with hints := v.hints.set_ep_word r.2 }
  | .mode a :: rest, v =>
    let r := parse_uint a v.hints.mode
    if r.1.ret < 0 then
      .error ({ v with hints := { v.hints with mode := r.2 } }, r.1.events)
    else option_loop rest { v with hints := { v.hints with mode := r.2 } }
  | .other :: rest, v => option_loop rest v

/-- The function `main`, on the options `getopt_long` finds in `argv`. -/
def main (argv : List Opt) (env : Env) : Outcome :=
  match option_loop argv Vars.init with
  | .error (v, evs) => (error env v).after evs
  | .ok v => resolve env v

/-! ## Vocabulary of the specification -/

/-- The tokens of a flag list as the specification describes them: the
pieces between the separators `,` and `|`, empty pieces left out. -/
def tokens (arg : List Char) : List (List Char) :=
  (arg.splitOnP isDelim).filter (fun tok => !tok.isEmpty)

/-- The lookup table of the design notes: token name, the field it belongs
to (`int` for the OS names, `uint` for the fabric names), and bit value. -/
def flag_table : List (String × Ptr × Nat) :=
  [("FI_WRITE", .uint, FI_WRITE), ("FI_RMA", .uint, FI_RMA), ("FI_READ", .uint, FI_READ),
   ("FI_REMOTE_READ", .uint, FI_REMOTE_READ), ("FI_REMOTE_WRITE", .uint, FI_REMOTE_WRITE),
   ("FI_MSG", .uint, FI_MSG), ("FI_EP_MSG", .uint, FI_EP_MSG),
   ("FI_EP_DGRAM", .uint, FI_EP_DGRAM), ("FI_EP_RDM", .uint, FI_EP_RDM),
   ("FI_EP_SOCK_STREAM", .uint, FI_EP_SOCK_STREAM), ("FI_RX_CQ_DATA", .uint, FI_RX_CQ_DATA),
   ("MAP_SHARED", .int, MAP_SHARED), ("MAP_LOCKED", .int, MAP_LOCKED),
   ("PROT_READ", .int, PROT_READ), ("PROT_WRITE", .int, PROT_WRITE),
   ("PROT_NONE", .int, PROT_NONE), ("O_RDWR", .int, O_RDWR), ("O_WRONLY", .int, O_WRONLY),
   ("O_RDONLY", .int, O_RDONLY), ("O_CLOEXEC", .int, O_CLOEXEC)]

/-- Table lookup by exact name. -/
def lookup (tok : List Char) : Option (Ptr × Nat) :=
  (flag_table.find? (fun e => e.1.toList = tok)).map (fun e => e.2)

/-- The field a token belongs to; `none` for a token outside the vocabulary. -/
def tokenField (tok : List Char) : Option Ptr :=
  (lookup tok).map (fun e => e.1)

/-- The bit value of a token; 0 for a token outside the vocabulary. -/
def tokenBit (tok : List Char) : Nat :=
  match lookup tok with
  | some e => e.2
  | none => 0

/-- The bitwise OR of the bit values of a list of tokens. -/
def orBits (toks : List (List Char)) : Nat :=
  toks.foldl (fun acc tok => acc ||| tokenBit tok) 0

/-- The twenty names of the vocabulary. -/
def vocabulary : List (List Char) :=
  flag_table.map (fun e => e.1.toList)

/-- The other one of the two fields. -/
def Ptr.other : Ptr → Ptr
  | .int => .uint
  | .uint => .int

/-- A token that a call supplying only the field `p` has to reject: one
outside the vocabulary, or one that belongs to the other field. -/
def rejected (p : Ptr) (tok : List Char) : Prop :=
  tok ∉ vocabulary ∨ tokenField tok = some p.other

/-- The targets of a call that supplies one pointer and `NULL` for the other. -/
def Targets.only : Ptr → Nat → Targets
  | .int, v => ⟨some v, none⟩
  | .uint, v => ⟨none, some v⟩

/-- The loop of `parse_flag_values` told over the token list: apply tokens
in order and stop at the first one `parse_flag_value` rejects. -/
def run : List (List Char) → Targets → PResult
  | [], t => ⟨0, t, none⟩
  | tok :: rest, t =>
    if (parse_flag_value tok t).1 < 0 then ⟨-1, (parse_flag_value tok t).2, some tok⟩
    else run rest (parse_flag_value tok t).2

/-- A chain of `MAP_FLAG_STR` lines, one per table row, ending in
`return -1`. -/
def chain : List (String × Ptr × Nat) → List Char → Targets → Int × Targets
  | [], _, t => (-1, t)
  | (name, p, flag) :: rows, s, t => MAP_FLAG_STR s name flag p t (chain rows s t)

/-- What one table row does to the targets. -/
def applyRow (t : Targets) : Option (Ptr × Nat) → Int × Targets
  | none => (-1, t)
  | some (p, b) =>
    match t.get p with
    | none => (-1, t)
    | some v => (0, t.set p (v ||| b))

/-- The flag list an option carries, with the field it is parsed into. -/
def Opt.flagList : Opt → Option (Ptr × List Char)
  | .mmap_flags a => some (.int, a)
  | .prot_flags a => some (.int, a)
  | .open_flags a => some (.int, a)
  | .caps a => some (.uint, a)
  | .ep_type a => some (.uint, a)
  | .mode a => some (.uint, a)
  | _ => none

/-- An option without a flag list, or with a list all of whose tokens are
vocabulary names of the option's field. -/
def Opt.accepted (o : Opt) : Bool :=
  match o.flagList with
  | none => true
  | some (p, a) => (tokens a).all (fun tok => decide (tokenField tok = some p))

/-- Every flag list of the command line parses. -/
def listsAccepted (argv : List Opt) : Bool :=
  argv.all Opt.accepted

/-- The command line has `-n`. -/
def nodeGiven (argv : List Opt) : Bool :=
  argv.any (fun o => match o with | .node _ => true | _ => false)

/-- The command line has `-s`. -/
def serviceGiven (argv : List Opt) : Bool :=
  argv.any (fun o => match o with | .service _ => true | _ => false)

/-- The five resources of the data model. -/
inductive Resource where
  | info
  | fabric
  | domain
  | mapping
  | region
  deriving DecidableEq, Repr

/-- The resource a call hands out, when it succeeds. -/
def Event.acquires : Event → Option Resource
  | .fi_getinfo _ _ _ status => if status < 0 then none else some .info
  | .mmap _ _ _ failed => if failed then none else some .mapping
  | .fi_fabric2 status => if status < 0 then none else some .fabric
  | .fi_domain status => if status < 0 then none else some .domain
  | .fi_mr_regattr _ status => if status < 0 then none else some .region
  | _ => none

/-- The resource a call gives back. -/
def Event.releases : Event → Option Resource
  | .fi_close .mr _ => some .region
  | .fi_close .domain _ => some .domain
  | .fi_close .fabric _ => some .fabric
  | .fi_freeinfo => some .info
  | _ => none

/-- The resources a run acquires, in order. -/
def acquired (tr : List Event) : List Resource :=
  tr.filterMap Event.acquires

/-- The resources a run releases, in order. -/
def released (tr : List Event) : List Resource :=
  tr.filterMap Event.releases

/-- A call that touches the scratch file, the mapping or the fabric: `open`,
`ftruncate`, `close`, `mmap`, `fi_fabric2`, `fi_domain`, `fi_mr_regattr`,
`fi_mr_desc`. -/
def Event.isSetupCall : Event → Bool
  | .open_create _ => true
  | .ftruncate _ _ => true
  | .close _ => true
  | .open_test _ _ => true
  | .mmap _ _ _ _ => true
  | .fi_fabric2 _ => true
  | .fi_domain _ => true
  | .fi_mr_regattr _ _ => true
  | .fi_mr_desc _ => true
  | _ => false

/-- A call of `fi_getinfo`. -/
def Event.isGetinfo : Event → Bool
  | .fi_getinfo _ _ _ _ => true
  | _ => false

/-- What the cleanup does and writes: `fi_close`, its message, `fi_freeinfo`
and the two `free`s. -/
def Event.isCleanup : Event → Bool
  | .fi_close _ _ => true
  | .stderr _ => true
  | .fi_freeinfo => true
  | .free_node => true
  | .free_service => true
  | _ => false

/-- No handle is open. -/
def Vars.noHandles (v : Vars) : Prop :=
  v.info = false ∧ v.fabric = false ∧ v.domain = false ∧ v.mr = false

/-- What the option loop leaves in the locals `v'` when it runs to its end
from the locals `v`. -/
structure LoopOk (argv : List Opt) (v v' : Vars) : Prop where
  node : v'.node.isSome = (v.node.isSome || nodeGiven argv)
  service : v'.service.isSome = (v.service.isSome || serviceGiven argv)
  show_info : v'.show_info = (v.show_info || decide (Opt.info ∈ argv))
  info : v'.info = v.info
  fabric : v'.fabric = v.fabric
  domain : v'.domain = v.domain
  mr : v'.mr = v.mr

/-- The locals after one pass of the option loop over an option whose flag
list, if it has one, parses. -/
def Opt.apply : Opt → Vars → Vars
  | .help, v => v
  | .info, v => { v with show_info := true }
  | .provider a, v => { v with hints := { v.hints with prov_name := some a } }
  | .node a, v => { v with node := some a }
  | .service a, v => { v with service := some a }
  | .mmap_flags a, v => { v with mmap_flags := v.mmap_flags ||| orBits (tokens a) }
  | .prot_flags a, v => { v with mmap_prot := v.mmap_prot ||| orBits (tokens a) }
  | .open_flags a, v => { v with open_flags := v.open_flags ||| orBits (tokens a) }
  | .caps a, v => { v with hints := { v.hints with caps := v.hints.caps ||| orBits (tokens a) } }
  | .ep_type a, v =>
    { v with hints := v.hints.set_ep_word (v.hints.ep_word ||| orBits (tokens a)) }
  | .mode a, v => { v with hints := { v.hints with mode := v.hints.mode ||| orBits (tokens a) } }
  | .other, v => v

/-- Two states of the locals with the same handles. -/
def Vars.sameHandles (v w : Vars) : Prop :=
  w.info = v.info ∧ w.fabric = v.fabric ∧ w.domain = v.domain ∧ w.mr = v.mr

/-- The resources behind the handles that are open, in the order in which
the cleanup visits them. -/
def heldList (v : Vars) : List Resource :=
  (if v.mr then [.region] else []) ++ (if v.domain then [.domain] else [])
    ++ (if v.fabric then [.fabric] else []) ++ (if v.info then [.info] else [])

/-- The releases that undo a list of acquisitions: in reverse order, the
mapping left out. -/
def unwind (acq : List Resource) : List Resource :=
  (acq.filter (fun r => decide (r ≠ Resource.mapping))).reverse

/-- The order in which `main` acquires its resources. -/
def acquisitionOrder : List Resource :=
  [.info, .mapping, .fabric, .domain, .region]

/-- A trace in which no resource is acquired once the first one has been
released: it splits into a part without releases and a part without
acquisitions. -/
def Phased (tr : List Event) : Prop :=
  ∃ pre post, tr = pre ++ post ∧ released pre = [] ∧ acquired post = []

/-- An environment in which every call succeeds. -/
def Env.ok : Env :=
  { fi_getinfo := 0, open_create := 3, ftruncate := 0, close := 0, open_test := 3,
    mmap_failed := false, fi_fabric2 := 0, fi_domain := 0, fi_mr_regattr := 0,
    fi_mr_desc_null := false, fi_close_mr := 0, fi_close_domain := 0, fi_close_fabric := 0 }

/-! ## The flag parser -/

/-- Every flag of the `int` group fits a 32-bit `int` and every flag of the
`uint` group a `uint64_t`, so that the ORs of the parser never overflow. -/
theorem flag_table_bounds :
    ∀ e ∈ flag_table, (e.2.1 = Ptr.int → e.2.2 < 2 ^ 31) ∧ (e.2.1 = Ptr.uint → e.2.2 < 2 ^ 64) := by
  decide

theorem parse_flag_value_eq_chain (s : List Char) (t : Targets) :
    parse_flag_value s t = chain flag_table s t := rfl

theorem chain_eq (rows : List (String × Ptr × Nat)) (s : List Char) (t : Targets) :
    chain rows s t
      = applyRow t ((rows.find? (fun e => e.1.toList = s)).map (fun e => e.2)) := by
  induction rows with
  | nil => rfl
  | cons row rows ih =>
    obtain ⟨name, p, flag⟩ := row
    by_cases h : s = name.toList
    · subst h
      simp [chain, MAP_FLAG_STR, applyRow]
    · have h1 : ¬ s = name.data := h
      have h2 : ¬ name.data = s := fun e => h e.symm
      simp [chain, MAP_FLAG_STR, h1, h2, ih]

theorem parse_flag_value_eq (s : List Char) (t : Targets) :
    parse_flag_value s t = applyRow t (lookup s) := by
  rw [parse_flag_value_eq_chain, chain_eq]; rfl

theorem splitOnP_eq_takeWhile (xs : List Char) :
    xs.splitOnP isDelim = xs.takeWhile (fun x => !isDelim x) ::
      (match xs.dropWhile (fun x => !isDelim x) with
       | [] => []
       | _ :: r => r.splitOnP isDelim) := by
  induction xs with
  | nil => simp
  | cons x xs ih =>
    rw [List.splitOnP_cons]
    by_cases hx : isDelim x = true
    · simp [hx]
    · simp only [hx, Bool.false_eq_true, if_false]
      rw [ih]
      simp [List.modifyHead, List.takeWhile_cons, List.dropWhile_cons, hx]

theorem tokens_nil : tokens [] = [] := by
  simp [tokens]

theorem tokens_cons_delim (x : Char) (xs : List Char) (hx : isDelim x = true) :
    tokens (x :: xs) = tokens xs := by
  simp [tokens, List.splitOnP_cons, hx]

theorem tokens_dropWhile (s : List Char) : tokens (s.dropWhile isDelim) = tokens s := by
  induction s with
  | nil => rfl
  | cons x xs ih =>
    by_cases hx : isDelim x = true
    · rw [List.dropWhile_cons_of_pos hx, ih, tokens_cons_delim x xs hx]
    · rw [List.dropWhile_cons_of_neg hx]

theorem strtok_none {s : List Char} (h : strtok s = none) : tokens s = [] := by
  unfold strtok at h
  split at h
  · next hd => rw [← tokens_dropWhile, hd, tokens_nil]
  · simp at h

theorem strtok_some {s tok rest : List Char} (h : strtok s = some (tok, rest)) :
    tokens s = tok :: tokens rest := by
  unfold strtok at h
  split at h
  · simp at h
  · next c cs hd =>
    simp only [Option.some.injEq, Prod.mk.injEq] at h
    obtain ⟨rfl, rfl⟩ := h
    have hc : isDelim c = false := by
      have := List.head_dropWhile_not isDelim s (by rw [hd]; simp)
      simpa [hd] using this
    rw [← tokens_dropWhile, hd]
    unfold tokens
    rw [splitOnP_eq_takeWhile (c :: cs)]
    cases hr : List.dropWhile (fun x => !isDelim x) (c :: cs) with
    | nil => simp [List.takeWhile_cons, hc]
    | cons d r => simp [List.takeWhile_cons, hc]

theorem parse_loop_eq_run (fuel : Nat) (s : List Char) (h : s.length < fuel) (t : Targets) :
    parse_loop fuel s h t = run (tokens s) t := by
  induction fuel generalizing s t with
  | zero => exact absurd h (Nat.not_lt_zero _)
  | succ n ih =>
    unfold parse_loop
    split
    · next hs => rw [strtok_none hs]; rfl
    · next tok rest hs =>
      rw [strtok_some hs]
      simp only [run]
      split_ifs
      · rfl
      · exact ih _ _ _

theorem parse_flag_values_eq_run (arg : List Char) (t : Targets) :
    parse_flag_values arg t = run (tokens arg) t :=
  parse_loop_eq_run _ _ _ _

theorem parse_flag_value_only (tok : List Char) (p : Ptr) (v : Nat) :
    parse_flag_value tok (Targets.only p v) =
      if tokenField tok = some p then (0, Targets.only p (v ||| tokenBit tok))
      else (-1, Targets.only p v) := by
  rw [parse_flag_value_eq]
  unfold tokenField tokenBit
  cases hl : lookup tok with
  | none => simp [applyRow]
  | some e =>
    obtain ⟨q, b⟩ := e
    cases p <;> cases q <;> simp [applyRow, Targets.only, Targets.get, Targets.set]

theorem foldl_lor_init (f : List Char → Nat) (toks : List (List Char)) (a : Nat) :
    toks.foldl (fun acc tok => acc ||| f tok) a
      = a ||| toks.foldl (fun acc tok => acc ||| f tok) 0 := by
  induction toks generalizing a with
  | nil => simp
  | cons x xs ih =>
    simp only [List.foldl_cons]
    rw [ih (a ||| f x), ih (0 ||| f x)]
    simp [Nat.lor_assoc]

theorem orBits_cons (tok : List Char) (toks : List (List Char)) :
    orBits (tok :: toks) = tokenBit tok ||| orBits toks := by
  unfold orBits
  rw [List.foldl_cons, foldl_lor_init]
  simp

theorem orBits_append (xs ys : List (List Char)) :
    orBits (xs ++ ys) = orBits xs ||| orBits ys := by
  unfold orBits
  rw [List.foldl_append, foldl_lor_init]

theorem testBit_orBits (toks : List (List Char)) (i : Nat) :
    (orBits toks).testBit i = toks.any (fun tok => (tokenBit tok).testBit i) := by
  induction toks with
  | nil => simp [orBits]
  | cons x xs ih => rw [orBits_cons, Nat.testBit_or, ih, List.any_cons]

theorem orBits_congr {xs ys : List (List Char)} (h : ∀ tok, tok ∈ xs ↔ tok ∈ ys) :
    orBits xs = orBits ys := by
  apply Nat.eq_of_testBit_eq
  intro i
  rw [testBit_orBits, testBit_orBits, Bool.eq_iff_iff]
  simp only [List.any_eq_true]
  constructor
  · rintro ⟨x, hx, hb⟩; exact ⟨x, (h x).1 hx, hb⟩
  · rintro ⟨x, hx, hb⟩; exact ⟨x, (h x).2 hx, hb⟩

theorem run_accepted (p : Ptr) (toks : List (List Char)) (v : Nat)
    (h : ∀ tok ∈ toks, tokenField tok = some p) :
    run toks (Targets.only p v) = ⟨0, Targets.only p (v ||| orBits toks), none⟩ := by
  induction toks generalizing v with
  | nil => simp [run, orBits]
  | cons x xs ih =>
    have hx : tokenField x = some p := h x (List.mem_cons_self _ _)
    have hxs : ∀ tok ∈ xs, tokenField tok = some p :=
      fun tok ht => h tok (List.mem_cons_of_mem _ ht)
    simp only [run, parse_flag_value_only, hx, if_true]
    rw [if_neg (by decide), ih _ hxs, orBits_cons, Nat.lor_assoc]

theorem run_rejected (p : Ptr) (pre post : List (List Char)) (tok : List Char) (v : Nat)
    (hpre : ∀ x ∈ pre, tokenField x = some p) (htok : tokenField tok ≠ some p) :
    run (pre ++ tok :: post) (Targets.only p v)
      = ⟨-1, Targets.only p (v ||| orBits pre), some tok⟩ := by
  induction pre generalizing v with
  | nil => simp [run, parse_flag_value_only, htok, orBits]
  | cons x xs ih =>
    have hx : tokenField x = some p := hpre x (List.mem_cons_self _ _)
    have hxs : ∀ y ∈ xs, tokenField y = some p :=
      fun y hy => hpre y (List.mem_cons_of_mem _ hy)
    rw [List.cons_append]
    simp only [run, parse_flag_value_only, hx, if_true]
    rw [if_neg (by decide), ih _ hxs, orBits_cons, Nat.lor_assoc]

theorem first_rejected (p : Ptr) (toks : List (List Char))
    (h : ∃ tok ∈ toks, tokenField tok ≠ some p) :
    ∃ pre tok post, toks = pre ++ tok :: post ∧ (∀ x ∈ pre, tokenField x = some p)
      ∧ tokenField tok ≠ some p := by
  induction toks with
  | nil => obtain ⟨tok, hm, -⟩ := h; cases hm
  | cons x xs ih =>
    by_cases hx : tokenField x = some p
    · obtain ⟨tok, hm, ht⟩ := h
      have hm' : tok ∈ xs := by
        rcases List.mem_cons.1 hm with rfl | hm'
        · exact absurd hx ht
        · exact hm'
      obtain ⟨pre, t, post, rfl, hpre, hbad⟩ := ih ⟨tok, hm', ht⟩
      refine ⟨x :: pre, t, post, rfl, ?_, hbad⟩
      intro y hy
      rcases List.mem_cons.1 hy with rfl | hy'
      · exact hx
      · exact hpre y hy'
    · exact ⟨[], x, xs, rfl, by simp, hx⟩

theorem tokenField_eq_none_iff (tok : List Char) :
    tokenField tok = none ↔ tok ∉ vocabulary := by
  unfold tokenField lookup vocabulary
  rw [Option.map_eq_none', Option.map_eq_none', List.find?_eq_none]
  simp only [List.mem_map, not_exists, not_and, decide_eq_true_eq]

theorem rejected_iff (p : Ptr) (tok : List Char) :
    rejected p tok ↔ tokenField tok ≠ some p := by
  unfold rejected
  rw [← tokenField_eq_none_iff]
  cases tokenField tok with
  | none => simp
  | some q => cases p <;> cases q <;> simp [Ptr.other]

theorem run_ret (p : Ptr) (toks : List (List Char)) (v : Nat) :
    (run toks (Targets.only p v)).ret = -1 ↔ ∃ tok ∈ toks, rejected p tok := by
  by_cases h : ∀ tok ∈ toks, tokenField tok = some p
  · rw [run_accepted p toks v h]
    simp only [rejected_iff]
    constructor
    · intro h0; exact absurd h0 (by decide)
    · rintro ⟨tok, hm, hr⟩; exact absurd (h tok hm) hr
  · have h' : ∃ tok ∈ toks, tokenField tok ≠ some p := by
      push_neg at h; exact h
    obtain ⟨pre, tok, post, rfl, hpre, hbad⟩ := first_rejected p toks h'
    rw [run_rejected p pre post tok v hpre hbad]
    constructor
    · intro _
      obtain ⟨x, hm, hr⟩ := h'
      exact ⟨x, hm, (rejected_iff p x).2 hr⟩
    · intro _; rfl

/-! ## Claims about the flag parser -/

/-- C3: for a call that supplies only one of the two fields,
`parse_flag_values` returns -1 exactly when the list has a token that is
outside the vocabulary or belongs to the other field, and 0 otherwise; when
it returns -1, the token it reports is the first such token of the list and
only the tokens in front of it have been applied to the field. -/
theorem parse_flag_values_rejects_iff (arg : List Char) (p : Ptr) (v : Nat) :
    ((parse_flag_values arg (Targets.only p v)).ret = -1
        ↔ ∃ tok ∈ tokens arg, rejected p tok) ∧
    ((parse_flag_values arg (Targets.only p v)).ret = 0
        ↔ ¬ ∃ tok ∈ tokens arg, rejected p tok) ∧
    ((parse_flag_values arg (Targets.only p v)).ret = -1 →
      ∃ pre tok post, tokens arg = pre ++ tok :: post
        ∧ (∀ x ∈ pre, ¬ rejected p x) ∧ rejected p tok
        ∧ (parse_flag_values arg (Targets.only p v)).reported = some tok
        ∧ (parse_flag_values arg (Targets.only p v)).targets
            = Targets.only p (v ||| orBits pre)) := by
  rw [parse_flag_values_eq_run]
  refine ⟨run_ret p _ v, ?_, ?_⟩
  · by_cases h : ∀ tok ∈ tokens arg, tokenField tok = some p
    · rw [run_accepted p _ v h]
      simp only [rejected_iff, true_iff]
      rintro ⟨tok, hm, hr⟩
      exact hr (h tok hm)
    · have h' : ∃ tok ∈ tokens arg, tokenField tok ≠ some p := by
        push_neg at h; exact h
      obtain ⟨pre, tok, post, he, hpre, hbad⟩ := first_rejected p _ h'
      rw [he, run_rejected p pre post tok v hpre hbad, ← he]
      simp only [rejected_iff]
      constructor
      · intro h0; exact absurd h0 (by decide)
      · intro h0; exact absurd h' h0
  · intro hret
    have h' : ∃ tok ∈ tokens arg, tokenField tok ≠ some p := by
      obtain ⟨tok, hm, hr⟩ := (run_ret p _ v).1 hret
      exact ⟨tok, hm, (rejected_iff p tok).1 hr⟩
    obtain ⟨pre, tok, post, he, hpre, hbad⟩ := first_rejected p _ h'
    refine ⟨pre, tok, post, he, ?_, (rejected_iff p tok).2 hbad, ?_, ?_⟩
    · intro x hx hr
      exact (rejected_iff p x).1 hr (hpre x hx)
    · rw [he, run_rejected p pre post tok v hpre hbad]
    · rw [he, run_rejected p pre post tok v hpre hbad]

/-- C4: when every token of the list is a vocabulary name of the field that
is supplied, `parse_flag_values` returns 0 without a message and the field
holds its old value OR-ed with the table's bit values of the tokens; a second
list with the same set of tokens (in another order, with repetitions, other
separators or empty pieces) gives the same result. -/
theorem parse_flag_values_accepts (arg arg' : List Char) (p : Ptr) (v : Nat)
    (h : ∀ tok ∈ tokens arg, tok ∈ vocabulary ∧ tokenField tok = some p)
    (hsame : ∀ tok, tok ∈ tokens arg' ↔ tok ∈ tokens arg) :
    parse_flag_values arg (Targets.only p v)
        = ⟨0, Targets.only p (v ||| orBits (tokens arg)), none⟩ ∧
    parse_flag_values arg' (Targets.only p v)
        = parse_flag_values arg (Targets.only p v) := by
  have h1 : ∀ tok ∈ tokens arg, tokenField tok = some p := fun tok ht => (h tok ht).2
  have h2 : ∀ tok ∈ tokens arg', tokenField tok = some p :=
    fun tok ht => h1 tok ((hsame tok).1 ht)
  rw [parse_flag_values_eq_run, parse_flag_values_eq_run, run_accepted p _ v h1,
    run_accepted p _ v h2, orBits_congr hsame]
  exact ⟨rfl, rfl⟩

/-- C4, at a concrete input: `MAP_SHARED,MAP_LOCKED` and a reordered list with a
repeated token, the other separator and empty pieces. -/
theorem parse_flag_values_accepts_witness :
    (∀ tok ∈ tokens "MAP_SHARED,MAP_LOCKED".toList,
        tok ∈ vocabulary ∧ tokenField tok = some Ptr.int) ∧
    (∀ tok, tok ∈ tokens "|MAP_LOCKED||MAP_SHARED,MAP_LOCKED,".toList
        ↔ tok ∈ tokens "MAP_SHARED,MAP_LOCKED".toList) ∧
    parse_flag_values "MAP_SHARED,MAP_LOCKED".toList (Targets.only .int 4)
        = ⟨0, Targets.only .int 0x2005, none⟩ ∧
    parse_flag_values "|MAP_LOCKED||MAP_SHARED,MAP_LOCKED,".toList (Targets.only .int 4)
        = parse_flag_values "MAP_SHARED,MAP_LOCKED".toList (Targets.only .int 4) := by
  have hv : ∀ tok ∈ tokens "MAP_SHARED,MAP_LOCKED".toList,
      tok ∈ vocabulary ∧ tokenField tok = some Ptr.int := by decide
  have hs : ∀ tok, tok ∈ tokens "|MAP_LOCKED||MAP_SHARED,MAP_LOCKED,".toList
      ↔ tok ∈ tokens "MAP_SHARED,MAP_LOCKED".toList := by
    have e1 : tokens "|MAP_LOCKED||MAP_SHARED,MAP_LOCKED,".toList
        = ["MAP_LOCKED".toList, "MAP_SHARED".toList, "MAP_LOCKED".toList] := by decide
    have e2 : tokens "MAP_SHARED,MAP_LOCKED".toList
        = ["MAP_SHARED".toList, "MAP_LOCKED".toList] := by decide
    intro tok
    rw [e1, e2]
    simp only [List.mem_cons, List.mem_singleton, List.not_mem_nil, or_false]
    tauto
  have key := parse_flag_values_accepts "MAP_SHARED,MAP_LOCKED".toList
    "|MAP_LOCKED||MAP_SHARED,MAP_LOCKED,".toList .int 4 hv hs
  exact ⟨hv, hs, by rw [key.1]; decide, key.2⟩

/-- C6, as stated, fails: the list `MAP_LOCKED,BOGUS` is rejected and the
field, 0 before the call, holds `MAP_LOCKED` after it. -/
theorem parse_flag_values_rejected_list_changes_field :
    (parse_flag_values "MAP_LOCKED,BOGUS".toList (Targets.only .int 0)).ret = -1 ∧
    (parse_flag_values "MAP_LOCKED,BOGUS".toList (Targets.only .int 0)).targets
        = Targets.only .int MAP_LOCKED ∧
    Targets.only .int MAP_LOCKED ≠ Targets.only .int 0 := by decide

/-- C6, amended: when `parse_flag_values` returns -1, the field holds its old
value OR-ed with the bits of the tokens in front of the first rejected token;
it is unchanged exactly when those bits were all set before the call. -/
theorem parse_flag_values_rejected_field (arg : List Char) (p : Ptr) (v : Nat)
    (h : (parse_flag_values arg (Targets.only p v)).ret = -1) :
    ∃ pre tok post, tokens arg = pre ++ tok :: post
      ∧ (∀ x ∈ pre, tokenField x = some p) ∧ tokenField tok ≠ some p
      ∧ (parse_flag_values arg (Targets.only p v)).targets
          = Targets.only p (v ||| orBits pre)
      ∧ ((parse_flag_values arg (Targets.only p v)).targets = Targets.only p v
          ↔ v ||| orBits pre = v) := by
  rw [parse_flag_values_eq_run] at h ⊢
  have h' : ∃ tok ∈ tokens arg, tokenField tok ≠ some p := by
    obtain ⟨tok, hm, hr⟩ := (run_ret p _ v).1 h
    exact ⟨tok, hm, (rejected_iff p tok).1 hr⟩
  obtain ⟨pre, tok, post, he, hpre, hbad⟩ := first_rejected p _ h'
  refine ⟨pre, tok, post, he, hpre, hbad, ?_, ?_⟩
  · rw [he, run_rejected p pre post tok v hpre hbad]
  · rw [he, run_rejected p pre post tok v hpre hbad]
    cases p <;> simp [Targets.only]

/-- C6, amended, at a concrete input: the list `MAP_LOCKED,BOGUS` against a
field that holds `MAP_SHARED`. -/
theorem parse_flag_values_rejected_field_witness :
    (parse_flag_values "MAP_LOCKED,BOGUS".toList (Targets.only .int 1)).ret = -1 ∧
    ∃ pre tok post, tokens "MAP_LOCKED,BOGUS".toList = pre ++ tok :: post
      ∧ (∀ x ∈ pre, tokenField x = some Ptr.int) ∧ tokenField tok ≠ some Ptr.int
      ∧ (parse_flag_values "MAP_LOCKED,BOGUS".toList (Targets.only .int 1)).targets
          = Targets.only .int (1 ||| orBits pre)
      ∧ ((parse_flag_values "MAP_LOCKED,BOGUS".toList (Targets.only .int 1)).targets
            = Targets.only .int 1
          ↔ 1 ||| orBits pre = 1) :=
  ⟨by decide, parse_flag_values_rejected_field _ _ _ (by decide)⟩

/-! ## The option loop -/

theorem parse_int_accepted (a : List Char) (field : Nat)
    (h : ∀ tok ∈ tokens a, tokenField tok = some Ptr.int) :
    parse_int a field = (⟨0, ⟨some (field ||| orBits (tokens a)), none⟩, none⟩,
      field ||| orBits (tokens a)) := by
  have := run_accepted .int (tokens a) field h
  simp only [Targets.only] at this
  simp [parse_int, parse_flag_values_eq_run, this]

theorem parse_uint_accepted (a : List Char) (field : Nat)
    (h : ∀ tok ∈ tokens a, tokenField tok = some Ptr.uint) :
    parse_uint a field = (⟨0, ⟨none, some (field ||| orBits (tokens a))⟩, none⟩,
      field ||| orBits (tokens a)) := by
  have := run_accepted .uint (tokens a) field h
  simp only [Targets.only] at this
  simp [parse_uint, parse_flag_values_eq_run, this]

theorem parse_int_rejected (a : List Char) (field : Nat)
    (h : ¬ ∀ tok ∈ tokens a, tokenField tok = some Ptr.int) :
    ∃ tok w, (parse_int a field).1 = ⟨-1, ⟨some w, none⟩, some tok⟩ := by
  have h' : ∃ tok ∈ tokens a, tokenField tok ≠ some Ptr.int := by
    push_neg at h; exact h
  obtain ⟨pre, tok, post, he, hpre, hbad⟩ := first_rejected _ _ h'
  have := run_rejected .int pre post tok field hpre hbad
  simp only [Targets.only] at this
  exact ⟨tok, field ||| orBits pre, by simp [parse_int, parse_flag_values_eq_run, he, this]⟩

theorem parse_uint_rejected (a : List Char) (field : Nat)
    (h : ¬ ∀ tok ∈ tokens a, tokenField tok = some Ptr.uint) :
    ∃ tok w, (parse_uint a field).1 = ⟨-1, ⟨none, some w⟩, some tok⟩ := by
  have h' : ∃ tok ∈ tokens a, tokenField tok ≠ some Ptr.uint := by
    push_neg at h; exact h
  obtain ⟨pre, tok, post, he, hpre, hbad⟩ := first_rejected _ _ h'
  have := run_rejected .uint pre post tok field hpre hbad
  simp only [Targets.only] at this
  exact ⟨tok, field ||| orBits pre, by simp [parse_uint, parse_flag_values_eq_run, he, this]⟩

theorem option_loop_cons_accepted (o : Opt) (rest : List Opt) (v : Vars)
    (ho : o.accepted = true) (hne : o ≠ Opt.help) :
    option_loop (o :: rest) v = option_loop rest (o.apply v) := by
  cases o with
  | help => exact absurd rfl hne
  | info => rfl
  | provider a => rfl
  | node a => rfl
  | service a => rfl
  | other => rfl
  | mmap_flags a =>
    have ha : ∀ tok ∈ tokens a, tokenField tok = some Ptr.int := by
      simpa [Opt.accepted, Opt.flagList] using ho
    simp only [option_loop, parse_int_accepted a _ ha, Opt.apply]
    rw [if_neg (by decide)]
  | prot_flags a =>
    have ha : ∀ tok ∈ tokens a, tokenField tok = some Ptr.int := by
      simpa [Opt.accepted, Opt.flagList] using ho
    simp only [option_loop, parse_int_accepted a _ ha, Opt.apply]
    rw [if_neg (by decide)]
  | open_flags a =>
    have ha : ∀ tok ∈ tokens a, tokenField tok = some Ptr.int := by
      simpa [Opt.accepted, Opt.flagList] using ho
    simp only [option_loop, parse_int_accepted a _ ha, Opt.apply]
    rw [if_neg (by decide)]
  | caps a =>
    have ha : ∀ tok ∈ tokens a, tokenField tok = some Ptr.uint := by
      simpa [Opt.accepted, Opt.flagList] using ho
    simp only [option_loop, parse_uint_accepted a _ ha, Opt.apply]
    rw [if_neg (by decide)]
  | ep_type a =>
    have ha : ∀ tok ∈ tokens a, tokenField tok = some Ptr.uint := by
      simpa [Opt.accepted, Opt.flagList] using ho
    simp only [option_loop, parse_uint_accepted a _ ha, Opt.apply]
    rw [if_neg (by decide)]
  | mode a =>
    have ha : ∀ tok ∈ tokens a, tokenField tok = some Ptr.uint := by
      simpa [Opt.accepted, Opt.flagList] using ho
    simp only [option_loop, parse_uint_accepted a _ ha, Opt.apply]
    rw [if_neg (by decide)]

theorem Opt.apply_sameHandles (o : Opt) (v : Vars) : v.sameHandles (o.apply v) := by
  cases o <;> exact ⟨rfl, rfl, rfl, rfl⟩

theorem Vars.sameHandles_trans {u v w : Vars} (h1 : u.sameHandles v) (h2 : v.sameHandles w) :
    u.sameHandles w :=
  ⟨h2.1.trans h1.1, h2.2.1.trans h1.2.1, h2.2.2.1.trans h1.2.2.1, h2.2.2.2.trans h1.2.2.2⟩

theorem LoopOk.nil (v : Vars) : LoopOk [] v v where
  node := by simp [nodeGiven]
  service := by simp [serviceGiven]
  show_info := by simp
  info := rfl
  fabric := rfl
  domain := rfl
  mr := rfl

theorem LoopOk.step {o : Opt} {rest : List Opt} {v v' : Vars}
    (h : LoopOk rest (o.apply v) v') : LoopOk (o :: rest) v v' where
  node := by
    rw [h.node]
    cases o <;> simp [Opt.apply, nodeGiven]
  service := by
    rw [h.service]
    cases o <;> simp [Opt.apply, serviceGiven]
  show_info := by
    rw [h.show_info]
    cases o <;> simp [Opt.apply]
  info := by rw [h.info]; exact (o.apply_sameHandles v).1
  fabric := by rw [h.fabric]; exact (o.apply_sameHandles v).2.1
  domain := by rw [h.domain]; exact (o.apply_sameHandles v).2.2.1
  mr := by rw [h.mr]; exact (o.apply_sameHandles v).2.2.2

theorem option_loop_ok (argv : List Opt) (v : Vars)
    (hacc : listsAccepted argv = true) (hhelp : Opt.help ∉ argv) :
    ∃ v', option_loop argv v = .ok v' ∧ LoopOk argv v v' := by
  induction argv generalizing v with
  | nil => exact ⟨v, rfl, LoopOk.nil v⟩
  | cons o rest ih =>
    have hrest : listsAccepted rest = true := by
      simp only [listsAccepted, List.all_cons, Bool.and_eq_true] at hacc ⊢
      exact hacc.2
    have ho : o.accepted = true := by
      simp only [listsAccepted, List.all_cons, Bool.and_eq_true] at hacc
      exact hacc.1
    have hhelp' : Opt.help ∉ rest := fun hm => hhelp (List.mem_cons_of_mem _ hm)
    have hne : o ≠ Opt.help := fun e => hhelp (e ▸ List.mem_cons_self _ _)
    obtain ⟨v', hv', hok⟩ := ih (o.apply v) hrest hhelp'
    exact ⟨v', by rw [option_loop_cons_accepted o rest v ho hne, hv'], hok.step⟩

theorem option_loop_cons_rejected (o : Opt) (rest : List Opt) (v : Vars)
    (ho : o.accepted = false) :
    ∃ v' tok, option_loop (o :: rest) v = .error (v', [.invalid_flag tok])
      ∧ v.sameHandles v' := by
  cases o with
  | help => simp [Opt.accepted, Opt.flagList] at ho
  | info => simp [Opt.accepted, Opt.flagList] at ho
  | provider a => simp [Opt.accepted, Opt.flagList] at ho
  | node a => simp [Opt.accepted, Opt.flagList] at ho
  | service a => simp [Opt.accepted, Opt.flagList] at ho
  | other => simp [Opt.accepted, Opt.flagList] at ho
  | mmap_flags a =>
    have ha : ¬ ∀ tok ∈ tokens a, tokenField tok = some Ptr.int := by
      simpa [Opt.accepted, Opt.flagList] using ho
    obtain ⟨tok, w, hr⟩ := parse_int_rejected a v.mmap_flags ha
    refine ⟨{ v with mmap_flags := (parse_int a v.mmap_flags).2 },
      tok, ?_, ⟨rfl, rfl, rfl, rfl⟩⟩
    simp only [option_loop, hr, PResult.events]
    rw [if_pos (by decide)]
  | prot_flags a =>
    have ha : ¬ ∀ tok ∈ tokens a, tokenField tok = some Ptr.int := by
      simpa [Opt.accepted, Opt.flagList] using ho
    obtain ⟨tok, w, hr⟩ := parse_int_rejected a v.mmap_prot ha
    refine ⟨{ v with mmap_prot := (parse_int a v.mmap_prot).2 },
      tok, ?_, ⟨rfl, rfl, rfl, rfl⟩⟩
    simp only [option_loop, hr, PResult.events]
    rw [if_pos (by decide)]
  | open_flags a =>
    have ha : ¬ ∀ tok ∈ tokens a, tokenField tok = some Ptr.int := by
      simpa [Opt.accepted, Opt.flagList] using ho
    obtain ⟨tok, w, hr⟩ := parse_int_rejected a v.open_flags ha
    refine ⟨{ v with open_flags := (parse_int a v.open_flags).2 },
      tok, ?_, ⟨rfl, rfl, rfl, rfl⟩⟩
    simp only [option_loop, hr, PResult.events]
    rw [if_pos (by decide)]
  | caps a =>
    have ha : ¬ ∀ tok ∈ tokens a, tokenField tok = some Ptr.uint := by
      simpa [Opt.accepted, Opt.flagList] using ho
    obtain ⟨tok, w, hr⟩ := parse_uint_rejected a v.hints.caps ha
    refine ⟨{ v with hints := { v.hints with caps := (parse_uint a v.hints.caps).2 } },
      tok, ?_, ⟨rfl, rfl, rfl, rfl⟩⟩
    simp only [option_loop, hr, PResult.events]
    rw [if_pos (by decide)]
  | ep_type a =>
    have ha : ¬ ∀ tok ∈ tokens a, tokenField tok = some Ptr.uint := by
      simpa [Opt.accepted, Opt.flagList] using ho
    obtain ⟨tok, w, hr⟩ := parse_uint_rejected a v.hints.ep_word ha
    refine ⟨{ v with hints := v.hints.set_ep_word (parse_uint a v.hints.ep_word).2 },
      tok, ?_, ⟨rfl, rfl, rfl, rfl⟩⟩
    simp only [option_loop, hr, PResult.events]
    rw [if_pos (by decide)]
  | mode a =>
    have ha : ¬ ∀ tok ∈ tokens a, tokenField tok = some Ptr.uint := by
      simpa [Opt.accepted, Opt.flagList] using ho
    obtain ⟨tok, w, hr⟩ := parse_uint_rejected a v.hints.mode ha
    refine ⟨{ v with hints := { v.hints with mode := (parse_uint a v.hints.mode).2 } },
      tok, ?_, ⟨rfl, rfl, rfl, rfl⟩⟩
    simp only [option_loop, hr, PResult.events]
    rw [if_pos (by decide)]

theorem option_loop_error (argv : List Opt) (v : Vars)
    (h : ¬ (listsAccepted argv = true ∧ Opt.help ∉ argv)) :
    ∃ v' evs, option_loop argv v = .error (v', evs)
      ∧ (evs = [.show_help] ∨ ∃ tok, evs = [.invalid_flag tok]) ∧ v.sameHandles v' := by
  induction argv generalizing v with
  | nil => exact absurd ⟨rfl, List.not_mem_nil _⟩ h
  | cons o rest ih =>
    by_cases hhelp : o = Opt.help
    · subst hhelp
      exact ⟨v, _, rfl, Or.inl rfl, ⟨rfl, rfl, rfl, rfl⟩⟩
    · cases ho : o.accepted with
      | false =>
        obtain ⟨v', tok, he, hs⟩ := option_loop_cons_rejected o rest v ho
        exact ⟨v', _, he, Or.inr ⟨tok, rfl⟩, hs⟩
      | true =>
        have hrest : ¬ (listsAccepted rest = true ∧ Opt.help ∉ rest) := by
          rintro ⟨h1, h2⟩
          apply h
          refine ⟨by simp [listsAccepted, ho] at h1 ⊢; exact h1, ?_⟩
          intro hm
          rcases List.mem_cons.1 hm with e | hm'
          · exact hhelp e.symm
          · exact h2 hm'
        obtain ⟨v', evs, he, hev, hs⟩ := ih (o.apply v) hrest
        refine ⟨v', evs, ?_, hev, Vars.sameHandles_trans (o.apply_sameHandles v) hs⟩
        rw [option_loop_cons_accepted o rest v ho hhelp, he]

theorem option_loop_help (pre post : List Opt) (v : Vars) (hacc : listsAccepted pre = true) :
    ∃ v', option_loop (pre ++ Opt.help :: post) v = .error (v', [.show_help])
      ∧ v.sameHandles v' := by
  induction pre generalizing v with
  | nil => exact ⟨v, rfl, ⟨rfl, rfl, rfl, rfl⟩⟩
  | cons o rest ih =>
    by_cases hhelp : o = Opt.help
    · subst hhelp
      exact ⟨v, rfl, ⟨rfl, rfl, rfl, rfl⟩⟩
    · have ho : o.accepted = true := by
        simp only [listsAccepted, List.all_cons, Bool.and_eq_true] at hacc
        exact hacc.1
      have hrest : listsAccepted rest = true := by
        simp only [listsAccepted, List.all_cons, Bool.and_eq_true] at hacc ⊢
        exact hacc.2
      obtain ⟨v', he, hs⟩ := ih (o.apply v) hrest
      refine ⟨v', ?_, Vars.sameHandles_trans (o.apply_sameHandles v) hs⟩
      rw [List.cons_append, option_loop_cons_accepted o _ v ho hhelp, he]

/-! ## The pipeline behind the option loop -/

@[simp] theorem Outcome.after_trace (evs : List Event) (o : Outcome) :
    (o.after evs).trace = evs ++ o.trace := rfl

@[simp] theorem Outcome.after_status (evs : List Event) (o : Outcome) :
    (o.after evs).status = o.status := rfl

@[simp] theorem Outcome.after_vars (evs : List Event) (o : Outcome) :
    (o.after evs).vars = o.vars := rfl

theorem acquired_append (a b : List Event) : acquired (a ++ b) = acquired a ++ acquired b := by
  simp [acquired]

theorem released_append (a b : List Event) : released (a ++ b) = released a ++ released b := by
  simp [released]

theorem close_handle_acquired (b : Bool) (fid : Fid) (r : Int) (msg : String) (st : Int) :
    acquired (close_handle b fid r msg st).2 = [] := by
  unfold close_handle
  cases b <;> simp [acquired, Event.acquires]

theorem close_handle_released (b : Bool) (fid : Fid) (r : Int) (msg : String) (st : Int) :
    released (close_handle b fid r msg st).2
      = if b then (Event.releases (.fi_close fid r)).toList else [] := by
  unfold close_handle
  cases b <;> cases fid <;> simp [released] <;> split_ifs <;> simp [Event.releases]

theorem cleanup_acquired (env : Env) (v : Vars) (st : Int) :
    acquired (cleanup env v st).trace = [] := by
  simp only [cleanup, acquired_append, close_handle_acquired]
  split_ifs <;> simp [acquired, Event.acquires]

theorem cleanup_released (env : Env) (v : Vars) (st : Int) :
    released (cleanup env v st).trace = heldList v := by
  simp only [cleanup, released_append, close_handle_released, heldList]
  cases v.mr <;> cases v.domain <;> cases v.fabric <;> cases v.info <;>
    cases v.node.isSome <;> cases v.service.isSome <;>
    simp [released, Event.releases]

theorem phased_cleanup (env : Env) (v : Vars) (st : Int) : Phased (cleanup env v st).trace :=
  ⟨[], _, rfl, rfl, cleanup_acquired env v st⟩

theorem phased_after {evs : List Event} {o : Outcome} (h : released evs = [])
    (ho : Phased o.trace) : Phased (o.after evs).trace := by
  obtain ⟨pre, post, he, hp, hq⟩ := ho
  refine ⟨evs ++ pre, post, ?_, ?_, hq⟩
  · rw [Outcome.after_trace, he, List.append_assoc]
  · rw [released_append, h, hp]; rfl

theorem register_resources (env : Env) (v : Vars) (hmr : v.mr = false) :
    ∃ k, acquired (register env v).trace = [Resource.region].take k
      ∧ released (register env v).trace = unwind ([Resource.region].take k) ++ heldList v := by
  unfold register
  split_ifs with h1 h2
  · refine ⟨0, ?_, ?_⟩
    · simp only [error, Outcome.after_trace, acquired_append, cleanup_acquired]
      simp [acquired, Event.acquires, h1, hmr]
    · simp only [error, Outcome.after_trace, released_append, cleanup_released]
      simp [released, Event.releases, unwind, heldList, h1, hmr]
  · refine ⟨1, ?_, ?_⟩
    · simp only [error, Outcome.after_trace, acquired_append, cleanup_acquired]
      simp [acquired, Event.acquires, h1, hmr]
    · simp only [error, Outcome.after_trace, released_append, cleanup_released]
      simp [released, Event.releases, unwind, heldList, h1, hmr]
  · refine ⟨1, ?_, ?_⟩
    · simp only [error, Outcome.after_trace, acquired_append, cleanup_acquired]
      simp [acquired, Event.acquires, h1, hmr]
    · simp only [error, Outcome.after_trace, released_append, cleanup_released]
      simp [released, Event.releases, unwind, heldList, h1, hmr]

theorem open_fabric_resources (env : Env) (v : Vars) (hmr : v.mr = false)
    (hd : v.domain = false) (hf : v.fabric = false) :
    ∃ k, acquired (open_fabric env v).trace = [Resource.fabric, .domain, .region].take k
      ∧ released (open_fabric env v).trace
          = unwind ([Resource.fabric, .domain, .region].take k) ++ heldList v := by
  unfold open_fabric
  split_ifs with h1 h2
  · refine ⟨0, ?_, ?_⟩
    · simp only [error, Outcome.after_trace, acquired_append, cleanup_acquired]
      simp [acquired, Event.acquires, h1, hmr, hd, hf]
    · simp only [error, Outcome.after_trace, released_append, cleanup_released]
      simp [released, Event.releases, unwind, heldList, h1, hmr, hd, hf]
  · refine ⟨1, ?_, ?_⟩
    · simp only [error, Outcome.after_trace, acquired_append, cleanup_acquired]
      simp [acquired, Event.acquires, h1, h2, hmr, hd, hf]
    · simp only [error, Outcome.after_trace, released_append, cleanup_released]
      simp [released, Event.releases, unwind, heldList, h1, h2, hmr, hd, hf]
  · obtain ⟨k, ha, hr⟩ := register_resources env { v with fabric := true, domain := true } hmr
    refine ⟨k + 2, ?_, ?_⟩
    · rw [Outcome.after_trace, acquired_append, ha]
      simp [acquired, Event.acquires, h1, h2]
    · rw [Outcome.after_trace, released_append, hr]
      simp [released, Event.releases, unwind, heldList, hmr, hd, hf, List.filter_cons]

theorem prepare_shm_resources (env : Env) (v : Vars) (hmr : v.mr = false)
    (hd : v.domain = false) (hf : v.fabric = false) :
    ∃ k, acquired (prepare_shm env v).trace
          = [Resource.mapping, .fabric, .domain, .region].take k
      ∧ released (prepare_shm env v).trace
          = unwind ([Resource.mapping, .fabric, .domain, .region].take k) ++ heldList v := by
  unfold prepare_shm
  split_ifs with h1 h2 h3 h4 h5
  · refine ⟨0, ?_, ?_⟩
    · simp only [error, Outcome.after_trace, acquired_append, cleanup_acquired]
      simp [acquired, Event.acquires, hmr, hd, hf]
    · simp only [error, Outcome.after_trace, released_append, cleanup_released]
      simp [released, Event.releases, unwind, heldList, hmr, hd, hf]
  · refine ⟨0, ?_, ?_⟩
    · simp only [error, Outcome.after_trace, acquired_append, cleanup_acquired]
      simp [acquired, Event.acquires, hmr, hd, hf]
    · simp only [error, Outcome.after_trace, released_append, cleanup_released]
      simp [released, Event.releases, unwind, heldList, hmr, hd, hf]
  · refine ⟨0, ?_, ?_⟩
    · simp only [error, Outcome.after_trace, acquired_append, cleanup_acquired]
      simp [acquired, Event.acquires, hmr, hd, hf]
    · simp only [error, Outcome.after_trace, released_append, cleanup_released]
      simp [released, Event.releases, unwind, heldList, hmr, hd, hf]
  · refine ⟨0, ?_, ?_⟩
    · simp only [error, Outcome.after_trace, acquired_append, cleanup_acquired]
      simp [acquired, Event.acquires, hmr, hd, hf]
    · simp only [error, Outcome.after_trace, released_append, cleanup_released]
      simp [released, Event.releases, unwind, heldList, hmr, hd, hf]
  · refine ⟨0, ?_, ?_⟩
    · simp only [error, Outcome.after_trace, acquired_append, cleanup_acquired]
      simp [acquired, Event.acquires, h5, hmr, hd, hf]
    · simp only [error, Outcome.after_trace, released_append, cleanup_released]
      simp [released, Event.releases, unwind, heldList, h5, hmr, hd, hf]
  · obtain ⟨k, ha, hr⟩ := open_fabric_resources env v hmr hd hf
    refine ⟨k + 1, ?_, ?_⟩
    · rw [Outcome.after_trace, acquired_append, ha]
      simp [acquired, Event.acquires, h5]
    · rw [Outcome.after_trace, released_append, hr]
      simp [released, Event.releases, unwind, List.filter_cons]

theorem resolve_resources (env : Env) (v : Vars) (hv : v.noHandles) :
    ∃ k, acquired (resolve env v).trace = acquisitionOrder.take k
      ∧ released (resolve env v).trace = unwind (acquisitionOrder.take k) := by
  obtain ⟨hi, hf, hd, hmr⟩ := hv
  unfold resolve
  split
  · next service node hs hn =>
    simp only []
    split_ifs with h1 h2
    · refine ⟨0, ?_, ?_⟩
      · simp only [error, Outcome.after_trace, acquired_append, cleanup_acquired]
        simp [acquired, Event.acquires, h1]
      · simp only [error, Outcome.after_trace, released_append, cleanup_released]
        simp [released, Event.releases, unwind, heldList, apply_defaults, hi, hf, hd, hmr]
    · refine ⟨1, ?_, ?_⟩
      · simp only [Outcome.after_trace, acquired_append, cleanup_acquired]
        simp [acquired, Event.acquires, h1, acquisitionOrder]
      · simp only [Outcome.after_trace, released_append, cleanup_released]
        simp [released, Event.releases, unwind, heldList, apply_defaults, hf, hd, hmr,
          acquisitionOrder]
    · obtain ⟨k, ha, hr⟩ := prepare_shm_resources env { apply_defaults v with info := true }
        hmr hd hf
      refine ⟨k + 1, ?_, ?_⟩
      · rw [Outcome.after_trace, acquired_append, ha]
        simp [acquired, Event.acquires, h1, acquisitionOrder]
      · rw [Outcome.after_trace, released_append, hr]
        simp [released, Event.releases, unwind, heldList, apply_defaults, hf, hd, hmr,
          acquisitionOrder, List.filter_cons]
  · refine ⟨0, ?_, ?_⟩
    · simp only [error, Outcome.after_trace, acquired_append, cleanup_acquired]
      simp [acquired, Event.acquires]
    · simp only [error, Outcome.after_trace, released_append, cleanup_released]
      simp [released, Event.releases, unwind, heldList, hi, hf, hd, hmr]

theorem phased_register (env : Env) (v : Vars) : Phased (register env v).trace := by
  unfold register
  split_ifs <;>
    exact phased_after (by simp [released, Event.releases]) (phased_cleanup _ _ _)

theorem phased_open_fabric (env : Env) (v : Vars) : Phased (open_fabric env v).trace := by
  unfold open_fabric
  split_ifs
  · exact phased_after (by simp [released, Event.releases]) (phased_cleanup _ _ _)
  · exact phased_after (by simp [released, Event.releases]) (phased_cleanup _ _ _)
  · exact phased_after (by simp [released, Event.releases]) (phased_register _ _)

theorem phased_prepare_shm (env : Env) (v : Vars) : Phased (prepare_shm env v).trace := by
  unfold prepare_shm
  split_ifs
  · exact phased_after (by simp [released, Event.releases]) (phased_cleanup _ _ _)
  · exact phased_after (by simp [released, Event.releases]) (phased_cleanup _ _ _)
  · exact phased_after (by simp [released, Event.releases]) (phased_cleanup _ _ _)
  · exact phased_after (by simp [released, Event.releases]) (phased_cleanup _ _ _)
  · exact phased_after (by simp [released, Event.releases]) (phased_cleanup _ _ _)
  · exact phased_after (by simp [released, Event.releases]) (phased_open_fabric _ _)

theorem phased_resolve (env : Env) (v : Vars) : Phased (resolve env v).trace := by
  unfold resolve
  split
  · simp only []
    split_ifs
    · exact phased_after (by simp [released, Event.releases]) (phased_cleanup _ _ _)
    · exact phased_after (by simp [released, Event.releases]) (phased_cleanup _ _ _)
    · exact phased_after (by simp [released, Event.releases]) (phased_prepare_shm _ _)
  · exact phased_after (by simp [released, Event.releases]) (phased_cleanup _ _ _)

theorem noHandles_init : Vars.init.noHandles := ⟨rfl, rfl, rfl, rfl⟩

theorem noHandles_of_same {v w : Vars} (hv : v.noHandles) (h : v.sameHandles w) :
    w.noHandles :=
  ⟨h.1.trans hv.1, h.2.1.trans hv.2.1, h.2.2.1.trans hv.2.2.1, h.2.2.2.trans hv.2.2.2⟩

/-- The two ways the option loop ends. -/
theorem main_cases (argv : List Opt) (env : Env) :
    (listsAccepted argv = true ∧ Opt.help ∉ argv ∧
      ∃ v, LoopOk argv Vars.init v ∧ v.noHandles ∧ main argv env = resolve env v) ∨
    (¬ (listsAccepted argv = true ∧ Opt.help ∉ argv) ∧
      ∃ v evs, v.noHandles ∧ (evs = [.show_help] ∨ ∃ tok, evs = [.invalid_flag tok])
        ∧ main argv env = (error env v).after evs) := by
  by_cases h : listsAccepted argv = true ∧ Opt.help ∉ argv
  · obtain ⟨v, hv, hok⟩ := option_loop_ok argv Vars.init h.1 h.2
    refine Or.inl ⟨h.1, h.2, v, hok, ⟨hok.info, hok.fabric, hok.domain, hok.mr⟩, ?_⟩
    simp only [main, hv]
  · obtain ⟨v, evs, hv, hev, hs⟩ := option_loop_error argv Vars.init h
    refine Or.inr ⟨h, v, evs, noHandles_of_same noHandles_init hs, hev, ?_⟩
    simp only [main, hv]

theorem close_handle_events (b : Bool) (fid : Fid) (r : Int) (msg : String) (st : Int) :
    ∀ e ∈ (close_handle b fid r msg st).2, e.isCleanup = true := by
  intro e he
  unfold close_handle at he
  cases b
  · simp at he
  · simp only [if_true, List.mem_cons] at he
    rcases he with rfl | he
    · rfl
    · split_ifs at he
      · simp only [List.mem_singleton] at he; subst he; rfl
      · simp at he

theorem cleanup_events (env : Env) (v : Vars) (st : Int) :
    ∀ e ∈ (cleanup env v st).trace, e.isCleanup = true := by
  intro e he
  simp only [cleanup, List.mem_append] at he
  rcases he with ((((he | he) | he) | he) | he) | he
  · exact close_handle_events _ _ _ _ _ e he
  · exact close_handle_events _ _ _ _ _ e he
  · exact close_handle_events _ _ _ _ _ e he
  · split_ifs at he
    · simp only [List.mem_singleton] at he; subst he; rfl
    · simp at he
  · split_ifs at he
    · simp only [List.mem_singleton] at he; subst he; rfl
    · simp at he
  · split_ifs at he
    · simp only [List.mem_singleton] at he; subst he; rfl
    · simp at he

theorem cleanup_status_noHandles (env : Env) (v : Vars) (st : Int) (hv : v.noHandles) :
    (cleanup env v st).status = st := by
  obtain ⟨hi, hf, hd, hmr⟩ := hv
  simp [cleanup, close_handle, hf, hd, hmr]

theorem cleanup_trace_noHandles (env : Env) (v : Vars) (st : Int) (hv : v.noHandles) :
    (cleanup env v st).trace
      = (if v.node.isSome then [Event.free_node] else [])
        ++ (if v.service.isSome then [Event.free_service] else []) := by
  obtain ⟨hi, hf, hd, hmr⟩ := hv
  simp [cleanup, close_handle, hi, hf, hd, hmr]

theorem isCleanup_not_setup (e : Event) (h : e.isCleanup = true) :
    (!e.isSetupCall && !e.isGetinfo) = true := by
  cases e <;> simp_all [Event.isCleanup, Event.isSetupCall, Event.isGetinfo]

theorem resolve_setup (env : Env) (v : Vars)
    (h : ∃ e ∈ (resolve env v).trace, e.isSetupCall = true) :
    v.node.isSome = true ∧ v.service.isSome = true ∧ 0 ≤ env.fi_getinfo
      ∧ v.show_info = false := by
  obtain ⟨e, he, hset⟩ := h
  have quiet : ∀ w st, e ∈ (cleanup env w st).trace → False := by
    intro w st hm
    have := isCleanup_not_setup e (cleanup_events env w st e hm)
    simp [hset] at this
  unfold resolve at he
  split at he
  · next service node hs hn =>
    simp only [] at he
    split_ifs at he with h1 h2
    · simp only [error, Outcome.after_trace, List.mem_append, List.mem_cons,
        List.mem_singleton, List.not_mem_nil, or_false] at he
      rcases he with (rfl | rfl) | he
      · simp [Event.isSetupCall] at hset
      · simp [Event.isSetupCall] at hset
      · exact (quiet _ _ he).elim
    · simp only [Outcome.after_trace, List.mem_append, List.mem_cons,
        List.mem_singleton, List.not_mem_nil, or_false] at he
      rcases he with (rfl | rfl) | he
      · simp [Event.isSetupCall] at hset
      · simp [Event.isSetupCall] at hset
      · exact (quiet _ _ he).elim
    · refine ⟨by simp [hn], by simp [hs], not_lt.1 h1, ?_⟩
      simpa [apply_defaults] using h2
  · simp only [error, Outcome.after_trace, List.mem_append, List.mem_singleton] at he
    rcases he with rfl | he
    · simp [Event.isSetupCall] at hset
    · exact (quiet _ _ he).elim

theorem resolve_no_getinfo (env : Env) (v : Vars) (h : v.node = none ∨ v.service = none) :
    ∀ e ∈ (resolve env v).trace, e.isGetinfo = false := by
  intro e he
  unfold resolve at he
  split at he
  · next service node hs hn =>
    rcases h with h | h
    · rw [h] at hn; cases hn
    · rw [h] at hs; cases hs
  · simp only [error, Outcome.after_trace, List.mem_append, List.mem_singleton] at he
    rcases he with rfl | he
    · rfl
    · have := isCleanup_not_setup e (cleanup_events env _ _ e he)
      simp only [Bool.and_eq_true, Bool.not_eq_true'] at this
      exact this.2

/-! ## Claims about `main` -/

/-- C1, at the failing input `-n 10.0.0.1 -s 7471` with `fi_domain` failing
(-1) and every other call succeeding: the failure is reported, the fabric is
closed, and `main` returns the 0 of that `fi_close`, not 1. -/
theorem main_domain_failure_returns_zero :
    (main [.node "10.0.0.1".toList, .service "7471".toList]
        { Env.ok with fi_domain := -1 }).status = 0 ∧
    Event.fi_perror (-1) "open domain" ∈
      (main [.node "10.0.0.1".toList, .service "7471".toList]
        { Env.ok with fi_domain := -1 }).trace ∧
    Event.fi_close .fabric 0 ∈
      (main [.node "10.0.0.1".toList, .service "7471".toList]
        { Env.ok with fi_domain := -1 }).trace := by
  decide

/-- C2, at the failing input: two command lines that differ in `-p`, `-c`,
`-m` and `-e` assemble different hint records, and both runs call
`fi_getinfo` once, with the node, the service and `NULL` for the hints. -/
theorem main_getinfo_hints_null :
    (main [.node "10.0.0.1".toList, .service "7471".toList, .provider "verbs".toList,
        .caps "FI_MSG".toList] Env.ok).vars.hints
      ≠ (main [.node "10.0.0.1".toList, .service "7471".toList, .provider "tcp".toList,
        .caps "FI_RMA".toList, .mode "FI_RX_CQ_DATA".toList, .ep_type "FI_EP_RDM".toList]
          Env.ok).vars.hints ∧
    (main [.node "10.0.0.1".toList, .service "7471".toList, .provider "verbs".toList,
        .caps "FI_MSG".toList] Env.ok).trace.filter Event.isGetinfo
      = [.fi_getinfo "10.0.0.1".toList "7471".toList none 0] ∧
    (main [.node "10.0.0.1".toList, .service "7471".toList, .provider "tcp".toList,
        .caps "FI_RMA".toList, .mode "FI_RX_CQ_DATA".toList, .ep_type "FI_EP_RDM".toList]
          Env.ok).trace.filter Event.isGetinfo
      = [.fi_getinfo "10.0.0.1".toList "7471".toList none 0] := by
  decide

/-- C7, at the failing input `-n 10.0.0.1 -s 7471`: two runs in which every
call but the `fi_close` of the fabric returns the same; where that close
returns 0 `main` returns 0, where it returns -5 `main` returns -5. -/
theorem main_status_follows_close :
    (main [.node "10.0.0.1".toList, .service "7471".toList] Env.ok).status = 0 ∧
    (main [.node "10.0.0.1".toList, .service "7471".toList]
        { Env.ok with fi_close_fabric := -5 }).status = -5 := by
  decide

/-- C5, at the failing input `-n 10.0.0.1 -s 7471 -P PROT_NONE` with every call
succeeding: the list is accepted and the OR of its tokens is `PROT_NONE`, the
call of `parse_flag_values` returns 0 and leaves 0 in `mmap_prot`, the test
`if (!mmap_prot)` takes the 0 for an absent option, and the scratch file is
mapped with `PROT_READ`. -/
theorem main_prot_none_maps_prot_read :
    listsAccepted
        [.node "10.0.0.1".toList, .service "7471".toList, .prot_flags "PROT_NONE".toList]
      = true ∧
    orBits (tokens "PROT_NONE".toList) = PROT_NONE ∧
    parse_int "PROT_NONE".toList Vars.init.mmap_prot = (⟨0, ⟨some 0, none⟩, none⟩, 0) ∧
    (main [.node "10.0.0.1".toList, .service "7471".toList,
        .prot_flags "PROT_NONE".toList] Env.ok).vars.mmap_prot = PROT_READ ∧
    Event.mmap shm_size PROT_READ (MAP_SHARED ||| MAP_LOCKED) false ∈
      (main [.node "10.0.0.1".toList, .service "7471".toList,
        .prot_flags "PROT_NONE".toList] Env.ok).trace ∧
    PROT_READ ≠ PROT_NONE := by
  decide

/-- The `-e` case at `-n 10.0.0.1 -s 7471 -e FI_RX_CQ_DATA`: the list is
accepted, bit 56 of the eight-byte store lands in `protocol`, `type` stays 0
and the test `if (!hints->ep_attr->type)` sets it to `FI_EP_MSG`. -/
theorem main_ep_type_high_bit :
    listsAccepted
        [.node "10.0.0.1".toList, .service "7471".toList, .ep_type "FI_RX_CQ_DATA".toList]
      = true ∧
    (main [.node "10.0.0.1".toList, .service "7471".toList,
        .ep_type "FI_RX_CQ_DATA".toList] Env.ok).vars.hints.ep_type = FI_EP_MSG ∧
    (main [.node "10.0.0.1".toList, .service "7471".toList,
        .ep_type "FI_RX_CQ_DATA".toList] Env.ok).vars.hints.protocol = 2 ^ 24 := by
  decide

/-- C8, as stated, fails: in the run of `-n 10.0.0.1 -s 7471` in which every
call succeeds the mapping is acquired before the fabric and the domain, not
after them, and it is not among the resources released. -/
theorem main_mapping_before_fabric_never_released :
    acquired (main [.node "10.0.0.1".toList, .service "7471".toList] Env.ok).trace
      = [.info, .mapping, .fabric, .domain, .region] ∧
    released (main [.node "10.0.0.1".toList, .service "7471".toList] Env.ok).trace
      = [.region, .domain, .fabric, .info] ∧
    acquired (main [.node "10.0.0.1".toList, .service "7471".toList] Env.ok).trace
      ≠ [.info, .fabric, .domain, .mapping, .region] ∧
    released (main [.node "10.0.0.1".toList, .service "7471".toList] Env.ok).trace
      ≠ (acquired (main [.node "10.0.0.1".toList, .service "7471".toList]
          Env.ok).trace).reverse := by
  decide

/-- C8, amended: in every run the resources are acquired in the order info,
mapping, fabric, domain, region (an initial part of it); the resources
acquired, the mapping apart, are released once each in the reverse order;
and nothing is acquired after the first release. -/
theorem main_resource_order (argv : List Opt) (env : Env) :
    acquired (main argv env).trace <+: [Resource.info, .mapping, .fabric, .domain, .region] ∧
    released (main argv env).trace
      = ((acquired (main argv env).trace).filter
          (fun r => decide (r ≠ Resource.mapping))).reverse ∧
    ∃ pre post, (main argv env).trace = pre ++ post ∧ released pre = []
      ∧ acquired post = [] := by
  rcases main_cases argv env with ⟨-, -, v, -, hv, hm⟩ | ⟨-, v, evs, hv, hev, hm⟩
  · rw [hm]
    obtain ⟨k, ha, hr⟩ := resolve_resources env v hv
    refine ⟨?_, ?_, phased_resolve env v⟩
    · rw [ha]; exact List.take_prefix _ _
    · rw [hr, ha]; rfl
  · rw [hm]
    have hnone : acquired evs = [] ∧ released evs = [] := by
      rcases hev with rfl | ⟨tok, rfl⟩ <;> exact ⟨rfl, rfl⟩
    have ha : acquired ((error env v).after evs).trace = [] := by
      rw [Outcome.after_trace, acquired_append, hnone.1, error, cleanup_acquired]; rfl
    have hr : released ((error env v).after evs).trace = [] := by
      obtain ⟨hi, hf, hd, hmr⟩ := hv
      rw [Outcome.after_trace, released_append, hnone.2, error, cleanup_released]
      simp [heldList, hi, hf, hd, hmr]
    refine ⟨?_, ?_, phased_after hnone.2 (phased_cleanup _ _ _)⟩
    · rw [ha]; exact List.nil_prefix
    · rw [ha, hr]; rfl

/-- C9: a run that makes any call on the scratch file, the mapping or the
fabric (`open`, `ftruncate`, `close`, `mmap`, `fi_fabric2`, `fi_domain`,
`fi_mr_regattr`, `fi_mr_desc`) is one in which every flag list parsed, `-h` and
`-i` were not given, node and service were given and `fi_getinfo` succeeded;
and a run without node or without service does not call `fi_getinfo`. -/
theorem main_setup_calls_only_if (argv : List Opt) (env : Env) :
    ((∃ e ∈ (main argv env).trace, e.isSetupCall = true) →
      listsAccepted argv = true ∧ Opt.help ∉ argv ∧ Opt.info ∉ argv
        ∧ nodeGiven argv = true ∧ serviceGiven argv = true ∧ 0 ≤ env.fi_getinfo) ∧
    ((nodeGiven argv = false ∨ serviceGiven argv = false) →
      ∀ e ∈ (main argv env).trace, e.isGetinfo = false) := by
  have quiet : ∀ (e : Event) (w : Vars) (st : Int), e ∈ (cleanup env w st).trace →
      e.isSetupCall = false ∧ e.isGetinfo = false := by
    intro e w st hm
    have := isCleanup_not_setup e (cleanup_events env w st e hm)
    simpa using this
  rcases main_cases argv env with ⟨hacc, hhelp, v, hok, hv, hm⟩ | ⟨-, v, evs, hv, hev, hm⟩
  · rw [hm]
    constructor
    · intro h
      obtain ⟨hn, hs, hg, hi⟩ := resolve_setup env v h
      rw [hok.node] at hn
      rw [hok.service] at hs
      rw [hok.show_info] at hi
      refine ⟨hacc, hhelp, ?_, by simpa [Vars.init] using hn, by simpa [Vars.init] using hs, hg⟩
      simpa [Vars.init] using hi
    · intro h
      apply resolve_no_getinfo
      rcases h with h | h
      · left
        have := hok.node
        rw [h] at this
        simpa [Vars.init] using this
      · right
        have := hok.service
        rw [h] at this
        simpa [Vars.init] using this
  · rw [hm]
    have hq : ∀ e ∈ ((error env v).after evs).trace,
        e.isSetupCall = false ∧ e.isGetinfo = false := by
      intro e he
      rw [Outcome.after_trace, List.mem_append] at he
      rcases he with he | he
      · rcases hev with rfl | ⟨tok, rfl⟩
        · simp only [List.mem_singleton] at he; subst he; exact ⟨rfl, rfl⟩
        · simp only [List.mem_singleton] at he; subst he; exact ⟨rfl, rfl⟩
      · exact quiet e _ _ he
    constructor
    · rintro ⟨e, he, hset⟩
      rw [(hq e he).1] at hset
      cases hset
    · intro _ e he
      exact (hq e he).2

/-- C9, at a concrete input: the run of `-n 10.0.0.1 -s 7471` in which every
call succeeds does open the scratch file. -/
theorem main_setup_calls_only_if_witness :
    (∃ e ∈ (main [.node "10.0.0.1".toList, .service "7471".toList] Env.ok).trace,
      e.isSetupCall = true) ∧
    listsAccepted [.node "10.0.0.1".toList, .service "7471".toList] = true ∧
    Opt.help ∉ [Opt.node "10.0.0.1".toList, .service "7471".toList] ∧
    Opt.info ∉ [Opt.node "10.0.0.1".toList, .service "7471".toList] ∧
    nodeGiven [.node "10.0.0.1".toList, .service "7471".toList] = true ∧
    serviceGiven [.node "10.0.0.1".toList, .service "7471".toList] = true ∧
    0 ≤ Env.ok.fi_getinfo :=
  ⟨by decide, (main_setup_calls_only_if _ Env.ok).1 (by decide)⟩

/-- C10, as stated, fails: `main` run on `-h` alone prints the usage and
returns 1, not 0. -/
theorem main_help_returns_one :
    (main [.help] Env.ok).trace = [.show_help] ∧
    (main [.help] Env.ok).status = 1 ∧
    (main [.help] Env.ok).status ≠ 0 := by
  decide

/-- C10, amended: when `-h` is reached before any rejected flag list, `main`
prints the usage, makes no call but the `free` of node and service, and
returns 1. -/
theorem main_help_exit (pre post : List Opt) (env : Env)
    (hacc : listsAccepted pre = true) :
    (main (pre ++ Opt.help :: post) env).status = 1 ∧
    ∃ frees, (main (pre ++ Opt.help :: post) env).trace = .show_help :: frees
      ∧ ∀ e ∈ frees, e = Event.free_node ∨ e = Event.free_service := by
  obtain ⟨v, hv, hs⟩ := option_loop_help pre post Vars.init hacc
  have hnh : v.noHandles := noHandles_of_same noHandles_init hs
  have hm : main (pre ++ Opt.help :: post) env = (error env v).after [.show_help] := by
    simp only [main, hv]
  rw [hm]
  refine ⟨?_, (cleanup env v 1).trace, rfl, ?_⟩
  · rw [Outcome.after_status, error, cleanup_status_noHandles env v 1 hnh]
  · rw [cleanup_trace_noHandles env v 1 hnh]
    intro e he
    rw [List.mem_append] at he
    rcases he with he | he <;> split_ifs at he <;> simp_all

/-- C10, amended, at a concrete input: `-n 10.0.0.1 -M MAP_SHARED -h -M BOGUS`. -/
theorem main_help_exit_witness :
    listsAccepted [.node "10.0.0.1".toList, .mmap_flags "MAP_SHARED".toList] = true ∧
    (main ([.node "10.0.0.1".toList, .mmap_flags "MAP_SHARED".toList]
        ++ Opt.help :: [.mmap_flags "BOGUS".toList]) Env.ok).status = 1 :=
  ⟨by decide, (main_help_exit _ _ Env.ok (by decide)).1⟩

end MemRegTest
